import Mathlib

/-!
Verification of the SourceKit type-context-info / conforming-method-list
result-marshalling layer (`tools/SourceKit/lib/SwiftLang/SwiftTypeContextInfo.cpp`).

The marshalling code appends rendered strings to a single growable text buffer
`SS` and records `(offset, length)` spans for each field; after all fields are
written it reconstitutes `StringRef` views from the spans and hands the finished
record to a downstream consumer.  The request lifecycle (symlink resolution,
invocation parsing, completion-instance pinning, two-phase parse/complete) is
driven by the two `...Impl` functions.

The embedding below models the arena as a `List Char`, spans as pairs of
naturals, and every external engine operation (type printing, declaration
description printing, member-type substitution, invocation parsing, instance
acquisition, second-pass result emission) as an input of the model: the
theorems quantify over all possible behaviours of those externals.
-/

namespace SwiftTypeContextInfo

/-- An `(offset, length)` span into the text arena, as recorded by the
`Begin`/`Length` bookkeeping around each write to `SS` in the source. -/
structure Span where
  offset : Nat
  length : Nat
deriving DecidableEq

/-- One write to the arena: `OS << text` together with recording
`Begin = SS.size()` before the write and `Length = SS.size() - Begin` after.
Returns the grown arena and the recorded span. -/
def append (arena text : List Char) : List Char × Span :=
  (arena ++ text, ⟨arena.length, text.length⟩)

/-- Reconstituting a field from the finished arena:
`StringRef(SS.begin() + Begin, Length)`.  (All spans produced by the encoder
are proved in-bounds, so the truncating `drop`/`take` semantics coincide with
the pointer arithmetic of the source.) -/
def resolveSpan (arena : List Char) (s : Span) : List Char :=
  (arena.drop s.offset).take s.length

/-- A Clang node attached to a declaration (`member->getClangNode()`).
`declNode rawBrief` models a node for which `getAsDecl()` returns a
declaration; `rawBrief` is `some b` when
`ClangContext.getRawCommentForAnyRedecl(D)` finds a raw comment whose
`getBriefText` is `b`, and `none` when no raw comment exists.
`otherNode` models a Clang node (e.g. a macro) for which `getAsDecl()`
returns null. -/
inductive ClangNode where
  | declNode (rawBrief : Option (List Char))
  | otherNode

/-- A Swift type as the marshaller observes it: its printed display name
(`Ty.print(OS)`), its printed USR (`SwiftLangSupport::printTypeUSR`), and,
when the type is a `FunctionType`, the result type
(`castTo<FunctionType>()->getResult()`); `fnResult = none` models a
non-function type, for which the cast would fail. -/
inductive Ty where
  | mk (printedName : List Char) (printedUSR : List Char) (fnResult : Option Ty)

/-- Display name of a type as printed by `Ty.print(OS)`. -/
def Ty.printedName : Ty → List Char
  | .mk n _ _ => n

/-- USR of a type as printed by `SwiftLangSupport::printTypeUSR`. -/
def Ty.printedUSR : Ty → List Char
  | .mk _ u _ => u

/-- The result type obtained by `castTo<FunctionType>()->getResult()`:
`some` when the type is a function type, `none` when the cast would fail. -/
def Ty.fnResult : Ty → Option Ty
  | .mk _ _ r => r

/-- A candidate declaration as the marshaller observes it.
`fullName` is what `member->getFullName().print(OS)` writes;
`asFuncDeclMethodTy` is `some` of `cast<FuncDecl>(member)->getMethodInterfaceType()`
when the declaration is a `FuncDecl` and `none` when the cast would fail;
`clangNode` is `member->getClangNode()` (`none` = native declaration);
`briefComment` is `member->getBriefComment()` (empty when no doc attached). -/
structure ValueDecl where
  fullName : List Char
  asFuncDeclMethodTy : Option Ty
  clangNode : Option ClangNode
  briefComment : List Char

/-- The pure external rendering/substitution functions the marshaller calls.
`printDesc m ty usePlaceholder` is
`SwiftLangSupport::printMemberDeclDescription(member, ty, usePlaceholder, OS)`;
`typeOfMember ety m fty` is
`ExprType->getTypeOfMember(DC->getParentModule(), member, funcTy)`
(the parent-module argument is folded into the function). -/
structure RenderEnv where
  printDesc : ValueDecl → Ty → Bool → List Char
  typeOfMember : Ty → ValueDecl → Ty → Ty

/-- The `DocBrief` computation of both `handleSingleResult` and
`handleResult`: if `member->getClangNode()` is non-null, the brief is the
brief text of the raw comment found through `getAsDecl()` and
`getRawCommentForAnyRedecl` (the default-empty `StringRef` when either step
yields nothing); otherwise it is `member->getBriefComment()`. -/
def memberBrief (m : ValueDecl) : List Char :=
  match m.clangNode with
  | some (ClangNode.declNode (some brief)) => brief
  | some (ClangNode.declNode none) => []
  | some ClangNode.otherNode => []
  | none => m.briefComment

/-- One engine result of the type-context query
(`ide::TypeContextInfoItem`): the expected type and the implicit members. -/
structure TypeContextInfoItem where
  expectedTy : Ty
  implicitMembers : List ValueDecl

/-- The span record built for one implicit member by `handleSingleResult`
(the `MemberInfo` struct): name, description and source-text spans plus the
brief-comment string (which is not interned in the arena). -/
structure TCMemberSpans where
  nameSpan : Span
  descSpan : Span
  stSpan : Span
  brief : List Char

/-- The finished `SourceKit::TypeContextInfoItem` together with its backing
arena `SS`: type-name and type-USR spans plus the member records. -/
structure EncodedTCResult where
  arena : List Char
  typeNameSpan : Span
  typeUSRSpan : Span
  members : List TCMemberSpans

/-- Encoding of one implicit member by `handleSingleResult` (lines 142-175):
append the printed full name, then the description
(`usePlaceholder=false`), then the source text (`usePlaceholder=true`),
and compute the doc brief. -/
def encodeTCMember (env : RenderEnv) (expectedTy : Ty) (arena : List Char)
    (m : ValueDecl) : List Char × TCMemberSpans :=
  let p1 := append arena m.fullName
  let p2 := append p1.1 (env.printDesc m expectedTy false)
  let p3 := append p2.1 (env.printDesc m expectedTy true)
  (p3.1, ⟨p1.2, p2.2, p3.2, memberBrief m⟩)

/-- The `for (auto member : Item.ImplicitMembers)` loop of
`handleSingleResult`: encode each member in order, threading the arena. -/
def encodeTCMembers (env : RenderEnv) (expectedTy : Ty) :
    List Char → List ValueDecl → List Char × List TCMemberSpans
  | arena, [] => (arena, [])
  | arena, m :: ms =>
    let p := encodeTCMember env expectedTy arena m
    let q := encodeTCMembers env expectedTy p.1 ms
    (q.1, p.2 :: q.2)

/-- `Consumer::handleSingleResult` (lines 118-195): start from an empty
arena `SS`, append the printed expected type and its USR, encode each
implicit member, and assemble the finished record. -/
def handleSingleResult (env : RenderEnv) (item : TypeContextInfoItem) :
    EncodedTCResult :=
  let p1 := append [] item.expectedTy.printedName
  let p2 := append p1.1 item.expectedTy.printedUSR
  let q := encodeTCMembers env item.expectedTy p2.1 item.implicitMembers
  ⟨q.1, p1.2, p2.2, q.2⟩

/-- One engine result of the conforming-method-list query
(`ide::ConformingMethodListResult`): the subject expression type and the
members found. -/
structure ConformingMethodListResult where
  exprType : Ty
  members : List ValueDecl

/-- The span record built for one conforming member by `handleResult`
(the `MemberInfo` struct of the conforming-method path): name, result-type
name, result-type USR, description and source-text spans plus the
brief-comment string. -/
structure CMMemberSpans where
  nameSpan : Span
  typeNameSpan : Span
  typeUSRSpan : Span
  descSpan : Span
  stSpan : Span
  brief : List Char

/-- The finished `SourceKit::ConformingMethodListResult` together with its
backing arena `SS`. -/
structure EncodedCMResult where
  arena : List Char
  typeNameSpan : Span
  typeUSRSpan : Span
  members : List CMMemberSpans

/-- Lines 369-372 of the source:
`auto funcTy = cast<FuncDecl>(member)->getMethodInterfaceType();`
`funcTy = Result.ExprType->getTypeOfMember(..., member, funcTy);`
`auto resultTy = funcTy->castTo<FunctionType>()->getResult();`
`none` models a failing `cast<FuncDecl>` or `castTo<FunctionType>`. -/
def substitutedResultTy (env : RenderEnv) (exprType : Ty) (m : ValueDecl) :
    Option Ty :=
  match m.asFuncDeclMethodTy with
  | none => none
  | some ifaceTy => (env.typeOfMember exprType m ifaceTy).fnResult

/-- Encoding of one conforming member by `handleResult` (lines 365-415):
compute the substituted result type (the two casts), then append the name,
the result-type name, the result-type USR, the description and the source
text, and compute the doc brief.  `none` models the assertion failure of an
unconditional cast. -/
def encodeCMMember (env : RenderEnv) (exprType : Ty) (arena : List Char)
    (m : ValueDecl) : Option (List Char × CMMemberSpans) :=
  match substitutedResultTy env exprType m with
  | none => none
  | some resultTy =>
    let p1 := append arena m.fullName
    let p2 := append p1.1 resultTy.printedName
    let p3 := append p2.1 resultTy.printedUSR
    let p4 := append p3.1 (env.printDesc m exprType false)
    let p5 := append p4.1 (env.printDesc m exprType true)
    some (p5.1, ⟨p1.2, p2.2, p3.2, p4.2, p5.2, memberBrief m⟩)

/-- The `for (auto member : Result.Members)` loop of `handleResult`:
encode each member in order, threading the arena; a cast failure aborts. -/
def encodeCMMembers (env : RenderEnv) (exprType : Ty) :
    List Char → List ValueDecl → Option (List Char × List CMMemberSpans)
  | arena, [] => some (arena, [])
  | arena, m :: ms =>
    match encodeCMMember env exprType arena m with
    | none => none
    | some p =>
      match encodeCMMembers env exprType p.1 ms with
      | none => none
      | some q => some (q.1, p.2 :: q.2)

/-- `Consumer::handleResult` of the conforming-method path (lines 336-439):
start from an empty arena `SS`, append the printed expression type and its
USR, encode each member, and assemble the finished record. -/
def handleConformingResult (env : RenderEnv)
    (res : ConformingMethodListResult) : Option EncodedCMResult :=
  let p1 := append [] res.exprType.printedName
  let p2 := append p1.1 res.exprType.printedUSR
  match encodeCMMembers env res.exprType p2.1 res.members with
  | none => none
  | some q => some ⟨q.1, p1.2, p2.2, q.2⟩

/-- Outcome of `initCompilerInvocation` as far as the marshaller inspects
it: whether `Invocation.getFrontendOptions().InputsAndOutputs.hasInputs()`. -/
structure InvocationInfo where
  hasInputs : Bool

/-- The pinned completion instance as far as the marshaller inspects it:
whether `CI->hasPersistentParserState()` (true when the instance is reused
from a prior identical request). -/
structure CompilerInstanceState where
  hasPersistentParserState : Bool

/-- Outcomes of the externally-performed request steps of
`swiftTypeContextInfoImpl` / `swiftConformingMethodListImpl`:
`realPath` is `FileSystem->getRealPath(...)` (`none` = error, in which case
the source falls back to the original identifier); `initInvocation` is
`initCompilerInvocation` (`Except.error e` = `Failed` with message `e`);
`getCompilerInstance` is `CompletionInst->getCompilerInstance(...)`
(`Except.error e` = null instance with message `e`). -/
structure ImplEnv where
  realPath : Option (List Char)
  origIdentifier : List Char
  initInvocation : Except String InvocationInfo
  getCompilerInstance : Except String CompilerInstanceState

/-- The buffer identifier after the best-effort symlink resolution of
lines 36-39: the resolved real path, or the original identifier when
resolution failed. -/
def resolvedBufferIdentifier (env : ImplEnv) : List Char :=
  match env.realPath with
  | some p => p
  | none => env.origIdentifier

/-- Outcome of one `...Impl` call: either a reported failure message
(return `false` with `Error` set), or success, carrying whether the
parse-and-resolve-imports pass was performed (`didParse`) and the results
the second pass emitted to the consumer. -/
inductive ImplOutcome (α : Type) where
  | failure (msg : String)
  | success (didParse : Bool) (results : α)

/-- The error message set at line 74 / line 287 of the source. -/
def noInputsError : String := "no input filenames specified"

/-- `swiftTypeContextInfoImpl` (lines 28-99): fail if
`initCompilerInvocation` fails; fail with `noInputsError` if the parsed
invocation has no inputs; fail if the completion instance cannot be
obtained; otherwise run `performParseAndResolveImportsOnly` exactly when
the instance holds no persistent parser state, then run the second pass,
which feeds `engineResults` to the consumer. -/
def swiftTypeContextInfoImpl (env : ImplEnv)
    (engineResults : List TypeContextInfoItem) :
    ImplOutcome (List TypeContextInfoItem) :=
  match env.initInvocation with
  | .error e => .failure e
  | .ok inv =>
    if inv.hasInputs then
      match env.getCompilerInstance with
      | .error e => .failure e
      | .ok ci => .success (!ci.hasPersistentParserState) engineResults
    else .failure noInputsError

/-- `swiftConformingMethodListImpl` (lines 240-313): identical lifecycle to
`swiftTypeContextInfoImpl`; the requested type names only parameterize the
engine-side callback factory and are reflected in `engineResults`. -/
def swiftConformingMethodListImpl (env : ImplEnv)
    (_expectedTypeNames : List String)
    (engineResults : List ConformingMethodListResult) :
    ImplOutcome (List ConformingMethodListResult) :=
  match env.initInvocation with
  | .error e => .failure e
  | .ok inv =>
    if inv.hasInputs then
      match env.getCompilerInstance with
      | .error e => .failure e
      | .ok ci => .success (!ci.hasPersistentParserState) engineResults
    else .failure noInputsError

/-- One callback delivered to the `SourceKit::TypeContextInfoConsumer`:
either `handleResult` with a finished record, or `failed` with a message. -/
inductive TCEvent where
  | result (r : EncodedTCResult)
  | failed (msg : String)

/-- Everything external that determines one `getExpressionContextInfo`
request: the `getFileSystem` outcome, the impl-step outcomes, the pure
renderers, and the items the engine's second pass emits. -/
structure TCRequestEnv where
  fileSystem : Except String Unit
  impl : ImplEnv
  render : RenderEnv
  engineResults : List TypeContextInfoItem

/-- `SwiftLangSupport::getExpressionContextInfo` (lines 101-211): a
filesystem failure or an impl failure produces exactly one `failed`
callback; otherwise `Consumer::handleResults` forwards each engine item,
in order, through `handleSingleResult` to the consumer. -/
def getExpressionContextInfo (env : TCRequestEnv) : List TCEvent :=
  match env.fileSystem with
  | .error e => [.failed e]
  | .ok _ =>
    match swiftTypeContextInfoImpl env.impl env.engineResults with
    | .failure e => [.failed e]
    | .success _ items =>
      items.map (fun it => .result (handleSingleResult env.render it))

/-- One callback delivered to the
`SourceKit::ConformingMethodListConsumer`. -/
inductive CMEvent where
  | result (r : EncodedCMResult)
  | failed (msg : String)

/-- Everything external that determines one `getConformingMethodList`
request. -/
structure CMRequestEnv where
  fileSystem : Except String Unit
  impl : ImplEnv
  render : RenderEnv
  expectedTypeNames : List String
  engineResults : List ConformingMethodListResult

/-- Encode and deliver each engine result of the conforming-method query in
order; `none` models the abort of a failing unconditional cast inside
`handleResult`. -/
def encodeAllResults (env : RenderEnv) :
    List ConformingMethodListResult → Option (List CMEvent)
  | [] => some []
  | r :: rs =>
    match handleConformingResult env r with
    | none => none
    | some out =>
      match encodeAllResults env rs with
      | none => none
      | some evs => some (CMEvent.result out :: evs)

/-- `SwiftLangSupport::getConformingMethodList` (lines 315-447): a
filesystem failure or an impl failure produces exactly one `failed`
callback; otherwise each engine result is encoded and delivered in order
(`none` = a cast assertion aborted the request). -/
def getConformingMethodList (env : CMRequestEnv) : Option (List CMEvent) :=
  match env.fileSystem with
  | .error e => some [.failed e]
  | .ok _ =>
    match swiftConformingMethodListImpl env.impl env.expectedTypeNames
        env.engineResults with
    | .failure e => some [.failed e]
    | .success _ results => encodeAllResults env.render results

/-- The ordered list of spans recorded for one type-context member. -/
def tcMemberSpanList (sp : TCMemberSpans) : List Span :=
  [sp.nameSpan, sp.descSpan, sp.stSpan]

/-- The ordered list of spans recorded for one conforming member. -/
def cmMemberSpanList (sp : CMMemberSpans) : List Span :=
  [sp.nameSpan, sp.typeNameSpan, sp.typeUSRSpan, sp.descSpan, sp.stSpan]

/-- All spans of a finished type-context record, in the order they were
recorded. -/
def tcSpans (r : EncodedTCResult) : List Span :=
  r.typeNameSpan :: r.typeUSRSpan :: (r.members.map tcMemberSpanList).flatten

/-- All spans of a finished conforming-method record, in the order they
were recorded. -/
def cmSpans (r : EncodedCMResult) : List Span :=
  r.typeNameSpan :: r.typeUSRSpan :: (r.members.map cmMemberSpanList).flatten

/-- `Tiles n l m`: the spans of `l` exactly tile the half-open interval
`[n, m)` in order: each span starts where the previous one ended. -/
def Tiles : Nat → List Span → Nat → Prop
  | n, [], m => n = m
  | n, s :: rest, m => s.offset = n ∧ Tiles (n + s.length) rest m

/-- Two spans do not overlap: one ends at or before the other begins. -/
def spanDisjoint (a b : Span) : Prop :=
  a.offset + a.length ≤ b.offset ∨ b.offset + b.length ≤ a.offset

/-- Field correctness for one encoded type-context member against the
finished arena `full`: every span resolves to the string that was appended
for it, and the brief is the doc-brief computation. -/
def tcMemberResolved (env : RenderEnv) (expectedTy : Ty) (full : List Char)
    (sp : TCMemberSpans) (m : ValueDecl) : Prop :=
  resolveSpan full sp.nameSpan = m.fullName ∧
  resolveSpan full sp.descSpan = env.printDesc m expectedTy false ∧
  resolveSpan full sp.stSpan = env.printDesc m expectedTy true ∧
  sp.brief = memberBrief m

/-- Field correctness for one encoded conforming member against the
finished arena `full`, including that the result-type fields come from the
substituted result type. -/
def cmMemberResolved (env : RenderEnv) (exprType : Ty) (full : List Char)
    (sp : CMMemberSpans) (m : ValueDecl) : Prop :=
  resolveSpan full sp.nameSpan = m.fullName ∧
  (∃ rty, substitutedResultTy env exprType m = some rty ∧
    resolveSpan full sp.typeNameSpan = rty.printedName ∧
    resolveSpan full sp.typeUSRSpan = rty.printedUSR) ∧
  resolveSpan full sp.descSpan = env.printDesc m exprType false ∧
  resolveSpan full sp.stSpan = env.printDesc m exprType true ∧
  sp.brief = memberBrief m

/-- The precondition the conforming-method marshaller imposes on each
engine-emitted member: the member is a `FuncDecl` and its substituted
interface type is a `FunctionType` (both unconditional casts succeed). -/
def cmPrecond (env : RenderEnv) (exprType : Ty) (m : ValueDecl) : Prop :=
  (substitutedResultTy env exprType m).isSome = true

/-- Concrete type used to evaluate the model: printed name `Int`, a short
USR, not a function type. -/
def tyEx : Ty := .mk ['I', 'n', 't'] ['s', 'I'] none

/-- Concrete function type whose result type is `tyEx`. -/
def tyFnEx : Ty := .mk ['f'] ['u'] (some tyEx)

/-- Concrete native member declaration named `foo` with method interface
type `tyFnEx` and an attached brief comment. -/
def memberEx : ValueDecl :=
  ⟨['f', 'o', 'o'], some tyFnEx, none, ['d', 'o', 'c']⟩

/-- Concrete foreign-origin member declaration whose Clang node carries a
raw comment with brief text `x`. -/
def memberForeignEx : ValueDecl :=
  ⟨['b', 'a', 'r'], none, some (ClangNode.declNode (some ['x'])), []⟩

/-- Concrete rendering environment: the description appends a marker to the
member name, and member-type substitution is the identity. -/
def envEx : RenderEnv :=
  ⟨fun m _ b => if b then m.fullName ++ ['s'] else m.fullName ++ ['d'],
   fun _ _ t => t⟩

/-- Concrete type-context engine item with one implicit member. -/
def itemEx : TypeContextInfoItem := ⟨tyEx, [memberEx]⟩

/-- Concrete conforming-method engine result with one member. -/
def cmResEx : ConformingMethodListResult := ⟨tyEx, [memberEx]⟩

/-- The encoded record of `cmResEx` (total because the example member
satisfies the cast precondition). -/
def cmOutEx : EncodedCMResult :=
  (handleConformingResult envEx cmResEx).getD ⟨[], ⟨0, 0⟩, ⟨0, 0⟩, []⟩

/-- Impl-step outcomes that reach the second pass on a fresh (not yet
parsed) completion instance. -/
def implEnvOk : ImplEnv :=
  ⟨none, ['a'], .ok ⟨true⟩, .ok ⟨false⟩⟩

/-- Impl-step outcomes that reach the second pass on a reused instance that
already holds persistent parser state. -/
def implEnvReuse : ImplEnv :=
  ⟨none, ['a'], .ok ⟨true⟩, .ok ⟨true⟩⟩

/-- Impl-step outcomes whose parsed invocation declares no input files. -/
def implEnvNoInputs : ImplEnv :=
  ⟨none, ['a'], .ok ⟨false⟩, .ok ⟨false⟩⟩

/-- A complete successful type-context request environment. -/
def tcEnvEx : TCRequestEnv := ⟨.ok (), implEnvOk, envEx, [itemEx]⟩

/-- A type-context request environment with an empty-input configuration. -/
def tcEnvNoInputs : TCRequestEnv := ⟨.ok (), implEnvNoInputs, envEx, [itemEx]⟩

/-- A complete successful conforming-method request environment. -/
def cmEnvEx : CMRequestEnv := ⟨.ok (), implEnvOk, envEx, [], [cmResEx]⟩

/-- A conforming-method request environment with an empty-input
configuration. -/
def cmEnvNoInputs : CMRequestEnv :=
  ⟨.ok (), implEnvNoInputs, envEx, [], [cmResEx]⟩

/-- A span recorded at the write position resolves to exactly the written
text, regardless of what follows it in the arena. -/
theorem resolveSpan_at (pre text tail : List Char) :
    resolveSpan (pre ++ (text ++ tail)) ⟨pre.length, text.length⟩ = text := by
  unfold resolveSpan
  rw [List.drop_left, List.take_left]

/-- Congruence form of `resolveSpan_at` for arbitrary presentations of the
arena, offset and length. -/
theorem resolveSpan_congr (full pre text tail : List Char) (off len : Nat)
    (hfull : full = pre ++ (text ++ tail)) (hoff : off = pre.length)
    (hlen : len = text.length) :
    resolveSpan full ⟨off, len⟩ = text := by
  subst hfull
  subst hoff
  subst hlen
  exact resolveSpan_at pre text tail

/-- Every span of a tiling of `[n, m)` lies within `[n, m)`. -/
theorem tiles_bounds :
    ∀ (l : List Span) (n m : Nat), Tiles n l m →
      n ≤ m ∧ ∀ s ∈ l, n ≤ s.offset ∧ s.offset + s.length ≤ m := by
  intro l
  induction l with
  | nil =>
    intro n m h
    exact ⟨Nat.le_of_eq h, by intro s hs; cases hs⟩
  | cons s rest ih =>
    intro n m h
    obtain ⟨hoff, htail⟩ := h
    obtain ⟨hle, hall⟩ := ih (n + s.length) m htail
    refine ⟨Nat.le_trans (Nat.le_add_right n s.length) hle, ?_⟩
    intro t ht
    cases ht with
    | head =>
      exact ⟨Nat.le_of_eq hoff.symm, by omega⟩
    | tail _ ht =>
      obtain ⟨h1, h2⟩ := hall t ht
      exact ⟨by omega, h2⟩

/-- The spans of a tiling are pairwise ordered: each earlier span ends at
or before each later span begins. -/
theorem tiles_pairwise :
    ∀ (l : List Span) (n m : Nat), Tiles n l m →
      l.Pairwise (fun a b => a.offset + a.length ≤ b.offset) := by
  intro l
  induction l with
  | nil => intro n m _; exact List.Pairwise.nil
  | cons s rest ih =>
    intro n m h
    obtain ⟨hoff, htail⟩ := h
    refine List.Pairwise.cons ?_ (ih (n + s.length) m htail)
    intro t ht
    obtain ⟨_, hall⟩ := tiles_bounds rest (n + s.length) m htail
    obtain ⟨h1, _⟩ := hall t ht
    omega

/-- Tilings compose. -/
theorem tiles_append :
    ∀ (l1 : List Span) (n k m : Nat) (l2 : List Span),
      Tiles n l1 k → Tiles k l2 m → Tiles n (l1 ++ l2) m := by
  intro l1
  induction l1 with
  | nil =>
    intro n k m l2 h1 h2
    cases h1
    simpa using h2
  | cons s rest ih =>
    intro n k m l2 h1 h2
    obtain ⟨hoff, htail⟩ := h1
    exact ⟨hoff, ih (n + s.length) k m l2 htail h2⟩

/-- `encodeTCMember` written out: the arena grows by the three appended
strings and the three spans are recorded at the successive write
positions. -/
theorem encodeTCMember_eq (env : RenderEnv) (ty : Ty) (arena : List Char)
    (m : ValueDecl) :
    encodeTCMember env ty arena m =
      (arena ++ m.fullName ++ env.printDesc m ty false ++
        env.printDesc m ty true,
       ⟨⟨arena.length, m.fullName.length⟩,
        ⟨(arena ++ m.fullName).length, (env.printDesc m ty false).length⟩,
        ⟨(arena ++ m.fullName ++ env.printDesc m ty false).length,
         (env.printDesc m ty true).length⟩,
        memberBrief m⟩) := rfl

/-- One type-context member encode: the arena grows by exactly the three
appended strings, the recorded spans tile the newly written region, and
each span resolves to its string in any extension of the grown arena. -/
theorem encodeTCMember_spec (env : RenderEnv) (ty : Ty) (arena : List Char)
    (m : ValueDecl) :
    (encodeTCMember env ty arena m).1
        = arena ++ m.fullName ++ env.printDesc m ty false ++
            env.printDesc m ty true ∧
    Tiles arena.length (tcMemberSpanList (encodeTCMember env ty arena m).2)
      (encodeTCMember env ty arena m).1.length ∧
    ∀ tail, tcMemberResolved env ty ((encodeTCMember env ty arena m).1 ++ tail)
      (encodeTCMember env ty arena m).2 m := by
  rw [encodeTCMember_eq]
  refine ⟨rfl, ?_, ?_⟩
  · refine ⟨rfl, ?_, ?_, ?_⟩ <;> (simp only [Tiles, List.length_append]; try omega)
  · intro tail
    refine ⟨?_, ?_, ?_, rfl⟩
    · exact resolveSpan_congr _ arena m.fullName
        (env.printDesc m ty false ++ (env.printDesc m ty true ++ tail)) _ _
        (by simp [List.append_assoc]) rfl rfl
    · exact resolveSpan_congr _ (arena ++ m.fullName)
        (env.printDesc m ty false) (env.printDesc m ty true ++ tail) _ _
        (by simp [List.append_assoc]) rfl rfl
    · exact resolveSpan_congr _
        (arena ++ m.fullName ++ env.printDesc m ty false)
        (env.printDesc m ty true) tail _ _
        (by simp [List.append_assoc]) rfl rfl

/-- Tilings transport along equal start positions. -/
theorem tiles_congr (n k m : Nat) (l : List Span) (h : n = k)
    (ht : Tiles n l m) : Tiles k l m := h ▸ ht

/-- The type-context member loop: the arena only grows, the recorded spans
tile the newly written region, and in any extension of the grown arena
every recorded span resolves to the string appended for it, member by
member in emission order. -/
theorem encodeTCMembers_spec (env : RenderEnv) (ty : Ty) :
    ∀ (ms : List ValueDecl) (arena : List Char),
      (∃ ext, (encodeTCMembers env ty arena ms).1 = arena ++ ext) ∧
      Tiles arena.length
        (((encodeTCMembers env ty arena ms).2.map tcMemberSpanList).flatten)
        (encodeTCMembers env ty arena ms).1.length ∧
      ∀ tail, List.Forall₂
        (tcMemberResolved env ty ((encodeTCMembers env ty arena ms).1 ++ tail))
        (encodeTCMembers env ty arena ms).2 ms := by
  intro ms
  induction ms with
  | nil =>
    intro arena
    refine ⟨⟨[], by simp [encodeTCMembers]⟩, ?_, ?_⟩
    · simp [encodeTCMembers, Tiles]
    · intro tail
      simp [encodeTCMembers]
  | cons m ms ih =>
    intro arena
    obtain ⟨⟨ext, hext⟩, htiles, hres⟩ := ih (encodeTCMember env ty arena m).1
    obtain ⟨hfst, hmtiles, hmres⟩ := encodeTCMember_spec env ty arena m
    have hE1 : (encodeTCMembers env ty arena (m :: ms)).1
        = (encodeTCMembers env ty (encodeTCMember env ty arena m).1 ms).1 := rfl
    have hE2 : (encodeTCMembers env ty arena (m :: ms)).2
        = (encodeTCMember env ty arena m).2 ::
          (encodeTCMembers env ty (encodeTCMember env ty arena m).1 ms).2 := rfl
    refine ⟨?_, ?_, ?_⟩
    · refine ⟨m.fullName ++ (env.printDesc m ty false ++
        (env.printDesc m ty true ++ ext)), ?_⟩
      rw [hE1, hext, hfst]
      simp [List.append_assoc]
    · rw [hE2, hE1]
      simp only [List.map_cons, List.flatten_cons]
      exact tiles_append _ _ _ _ _ hmtiles htiles
    · intro tail
      rw [hE2, hE1]
      refine List.Forall₂.cons ?_ (hres tail)
      have h2 : (encodeTCMembers env ty (encodeTCMember env ty arena m).1 ms).1
          ++ tail = (encodeTCMember env ty arena m).1 ++ (ext ++ tail) := by
        rw [hext, List.append_assoc]
      rw [h2]
      exact hmres (ext ++ tail)

/-- `Consumer::handleSingleResult` end to end: against the finished arena,
the type-name span resolves to the printed expected type, the type-USR span
to the printed USR, the member records correspond one-to-one and in order
to the implicit members with all fields resolving to the strings appended
for them, and all recorded spans tile the arena from position `0` to its
final size. -/
theorem handleSingleResult_spec (env : RenderEnv) (item : TypeContextInfoItem) :
    resolveSpan (handleSingleResult env item).arena
        (handleSingleResult env item).typeNameSpan
      = item.expectedTy.printedName ∧
    resolveSpan (handleSingleResult env item).arena
        (handleSingleResult env item).typeUSRSpan
      = item.expectedTy.printedUSR ∧
    List.Forall₂
      (tcMemberResolved env item.expectedTy (handleSingleResult env item).arena)
      (handleSingleResult env item).members item.implicitMembers ∧
    Tiles 0 (tcSpans (handleSingleResult env item))
      (handleSingleResult env item).arena.length := by
  obtain ⟨⟨ext, hext⟩, htiles, hres⟩ := encodeTCMembers_spec env item.expectedTy
    item.implicitMembers
    (item.expectedTy.printedName ++ item.expectedTy.printedUSR)
  have hr : handleSingleResult env item =
      ⟨(encodeTCMembers env item.expectedTy
          (item.expectedTy.printedName ++ item.expectedTy.printedUSR)
          item.implicitMembers).1,
       ⟨0, item.expectedTy.printedName.length⟩,
       ⟨item.expectedTy.printedName.length,
        item.expectedTy.printedUSR.length⟩,
       (encodeTCMembers env item.expectedTy
          (item.expectedTy.printedName ++ item.expectedTy.printedUSR)
          item.implicitMembers).2⟩ := rfl
  rw [hr]
  refine ⟨?_, ?_, ?_, ?_⟩
  · exact resolveSpan_congr _ [] item.expectedTy.printedName
      (item.expectedTy.printedUSR ++ ext) _ _
      (by rw [hext]; simp [List.append_assoc]) rfl rfl
  · exact resolveSpan_congr _ item.expectedTy.printedName
      item.expectedTy.printedUSR ext _ _
      (by rw [hext]; simp [List.append_assoc]) rfl rfl
  · simpa using hres []
  · rw [List.length_append] at htiles
    exact ⟨rfl, by simp, tiles_congr _ _ _ _ (by simp) htiles⟩

/-- `encodeCMMember` written out on a member whose substituted result type
exists: the arena grows by the five appended strings and the five spans are
recorded at the successive write positions. -/
theorem encodeCMMember_eq (env : RenderEnv) (ety : Ty) (arena : List Char)
    (m : ValueDecl) (rty : Ty)
    (hs : substitutedResultTy env ety m = some rty) :
    encodeCMMember env ety arena m =
      some (arena ++ m.fullName ++ rty.printedName ++ rty.printedUSR ++
              env.printDesc m ety false ++ env.printDesc m ety true,
            ⟨⟨arena.length, m.fullName.length⟩,
             ⟨(arena ++ m.fullName).length, rty.printedName.length⟩,
             ⟨(arena ++ m.fullName ++ rty.printedName).length,
              rty.printedUSR.length⟩,
             ⟨(arena ++ m.fullName ++ rty.printedName ++
                rty.printedUSR).length,
              (env.printDesc m ety false).length⟩,
             ⟨(arena ++ m.fullName ++ rty.printedName ++ rty.printedUSR ++
                env.printDesc m ety false).length,
              (env.printDesc m ety true).length⟩,
             memberBrief m⟩) := by
  unfold encodeCMMember
  rw [hs]
  rfl

/-- A member failing either unconditional cast makes `encodeCMMember`
abort. -/
theorem encodeCMMember_none (env : RenderEnv) (ety : Ty) (arena : List Char)
    (m : ValueDecl) (hs : substitutedResultTy env ety m = none) :
    encodeCMMember env ety arena m = none := by
  unfold encodeCMMember
  rw [hs]

/-- `encodeCMMember` succeeds exactly when the substituted result type
exists, i.e. when both unconditional casts succeed. -/
theorem encodeCMMember_isSome (env : RenderEnv) (ety : Ty) (arena : List Char)
    (m : ValueDecl) :
    (encodeCMMember env ety arena m).isSome
      = (substitutedResultTy env ety m).isSome := by
  cases hs : substitutedResultTy env ety m with
  | none =>
    rw [encodeCMMember_none env ety arena m hs]
    rfl
  | some rty =>
    rw [encodeCMMember_eq env ety arena m rty hs]
    rfl

/-- One conforming-member encode: the arena grows by exactly the five
appended strings, the recorded spans tile the newly written region, and
each span resolves to its string in any extension of the grown arena. -/
theorem encodeCMMember_spec (env : RenderEnv) (ety : Ty) (arena : List Char)
    (m : ValueDecl) (p : List Char × CMMemberSpans)
    (h : encodeCMMember env ety arena m = some p) :
    (∃ ext, p.1 = arena ++ ext) ∧
    Tiles arena.length (cmMemberSpanList p.2) p.1.length ∧
    ∀ tail, cmMemberResolved env ety (p.1 ++ tail) p.2 m := by
  cases hs : substitutedResultTy env ety m with
  | none =>
    rw [encodeCMMember_none env ety arena m hs] at h
    cases h
  | some rty =>
    rw [encodeCMMember_eq env ety arena m rty hs] at h
    injection h with h
    subst h
    refine ⟨?_, ?_, ?_⟩
    · exact ⟨m.fullName ++ (rty.printedName ++ (rty.printedUSR ++
        (env.printDesc m ety false ++ env.printDesc m ety true))),
        by simp [List.append_assoc]⟩
    · refine ⟨rfl, ?_, ?_, ?_, ?_, ?_⟩ <;>
        (simp only [Tiles, List.length_append]; try omega)
    · intro tail
      refine ⟨?_, ⟨rty, hs, ?_, ?_⟩, ?_, ?_, rfl⟩
      · exact resolveSpan_congr _ arena m.fullName
          (rty.printedName ++ (rty.printedUSR ++ (env.printDesc m ety false ++
            (env.printDesc m ety true ++ tail)))) _ _
          (by simp [List.append_assoc]) rfl rfl
      · exact resolveSpan_congr _ (arena ++ m.fullName) rty.printedName
          (rty.printedUSR ++ (env.printDesc m ety false ++
            (env.printDesc m ety true ++ tail))) _ _
          (by simp [List.append_assoc]) rfl rfl
      · exact resolveSpan_congr _ (arena ++ m.fullName ++ rty.printedName)
          rty.printedUSR (env.printDesc m ety false ++
            (env.printDesc m ety true ++ tail)) _ _
          (by simp [List.append_assoc]) rfl rfl
      · exact resolveSpan_congr _
          (arena ++ m.fullName ++ rty.printedName ++ rty.printedUSR)
          (env.printDesc m ety false) (env.printDesc m ety true ++ tail) _ _
          (by simp [List.append_assoc]) rfl rfl
      · exact resolveSpan_congr _
          (arena ++ m.fullName ++ rty.printedName ++ rty.printedUSR ++
            env.printDesc m ety false)
          (env.printDesc m ety true) tail _ _
          (by simp [List.append_assoc]) rfl rfl

/-- The conforming-member loop: when it succeeds, the arena only grows,
the recorded spans tile the newly written region, and in any extension of
the grown arena every span resolves to the string appended for it, member
by member in emission order. -/
theorem encodeCMMembers_spec (env : RenderEnv) (ety : Ty) :
    ∀ (ms : List ValueDecl) (arena a2 : List Char)
      (sps : List CMMemberSpans),
      encodeCMMembers env ety arena ms = some (a2, sps) →
      (∃ ext, a2 = arena ++ ext) ∧
      Tiles arena.length ((sps.map cmMemberSpanList).flatten) a2.length ∧
      ∀ tail, List.Forall₂ (cmMemberResolved env ety (a2 ++ tail)) sps ms := by
  intro ms
  induction ms with
  | nil =>
    intro arena a2 sps h
    unfold encodeCMMembers at h
    injection h with h
    injection h with h1 h2
    subst h1
    subst h2
    refine ⟨⟨[], by simp⟩, rfl, ?_⟩
    intro tail
    exact List.Forall₂.nil
  | cons m ms ih =>
    intro arena a2 sps h
    unfold encodeCMMembers at h
    split at h
    · cases h
    next p hm =>
      split at h
      · cases h
      next q ht =>
        injection h with h
        injection h with h1 h2
        subst h1
        subst h2
        obtain ⟨⟨ext1, hext1⟩, hmtiles, hmres⟩ :=
          encodeCMMember_spec env ety arena m p hm
        obtain ⟨⟨ext2, hext2⟩, htiles, hres⟩ :=
          ih p.1 q.1 q.2 (by rw [ht])
        refine ⟨⟨ext1 ++ ext2, by rw [hext2, hext1, List.append_assoc]⟩,
          ?_, ?_⟩
        · simp only [List.map_cons, List.flatten_cons]
          exact tiles_append _ _ p.1.length _ _ hmtiles htiles
        · intro tail
          refine List.Forall₂.cons ?_ (hres tail)
          have h2 : q.1 ++ tail = p.1 ++ (ext2 ++ tail) := by
            rw [hext2, List.append_assoc]
          rw [h2]
          exact hmres (ext2 ++ tail)

/-- `Consumer::handleResult` (conforming-method path) end to end: when the
encoding succeeds, the type-name and type-USR spans resolve to the printed
expression type and its USR, the member records correspond one-to-one and
in order to the engine members with all fields resolving to the strings
appended for them, and all recorded spans tile the arena from position `0`
to its final size. -/
theorem handleConformingResult_spec (env : RenderEnv)
    (res : ConformingMethodListResult) (out : EncodedCMResult)
    (h : handleConformingResult env res = some out) :
    resolveSpan out.arena out.typeNameSpan = res.exprType.printedName ∧
    resolveSpan out.arena out.typeUSRSpan = res.exprType.printedUSR ∧
    List.Forall₂ (cmMemberResolved env res.exprType out.arena)
      out.members res.members ∧
    Tiles 0 (cmSpans out) out.arena.length := by
  simp only [handleConformingResult, append, List.nil_append,
    List.length_nil] at h
  cases ht : encodeCMMembers env res.exprType
      (res.exprType.printedName ++ res.exprType.printedUSR)
      res.members with
  | none =>
    rw [ht] at h
    cases h
  | some q =>
    rw [ht] at h
    injection h with h
    subst h
    obtain ⟨⟨ext, hext⟩, htiles, hres⟩ :=
      encodeCMMembers_spec env res.exprType res.members _ q.1 q.2
        (by rw [ht])
    refine ⟨?_, ?_, ?_, ?_⟩
    · exact resolveSpan_congr _ [] res.exprType.printedName
        (res.exprType.printedUSR ++ ext) _ _
        (by rw [hext]; simp [List.append_assoc]) rfl rfl
    · exact resolveSpan_congr _ res.exprType.printedName
        res.exprType.printedUSR ext _ _
        (by rw [hext]; simp [List.append_assoc]) rfl rfl
    · simpa using hres []
    · rw [List.length_append] at htiles
      exact ⟨rfl, by simp, tiles_congr _ _ _ _ (by simp) htiles⟩

/-- The conforming-member loop succeeds exactly when every member
satisfies the cast precondition. -/
theorem encodeCMMembers_isSome (env : RenderEnv) (ety : Ty) :
    ∀ (ms : List ValueDecl) (arena : List Char),
      (encodeCMMembers env ety arena ms).isSome = true ↔
        ∀ m ∈ ms, cmPrecond env ety m := by
  intro ms
  induction ms with
  | nil =>
    intro arena
    simp [encodeCMMembers]
  | cons m ms ih =>
    intro arena
    rw [List.forall_mem_cons]
    cases hm : encodeCMMember env ety arena m with
    | none =>
      have hz : ¬ cmPrecond env ety m := by
        intro hp
        rw [cmPrecond, ← encodeCMMember_isSome env ety arena m, hm] at hp
        cases hp
      have hnone : encodeCMMembers env ety arena (m :: ms) = none := by
        unfold encodeCMMembers
        simp only [hm]
      rw [hnone]
      constructor
      · intro h
        cases h
      · intro h
        exact absurd h.1 hz
    | some p =>
      have hpre : cmPrecond env ety m := by
        rw [cmPrecond, ← encodeCMMember_isSome env ety arena m, hm]
        rfl
      cases ht : encodeCMMembers env ety p.1 ms with
      | none =>
        have hnone : encodeCMMembers env ety arena (m :: ms) = none := by
          unfold encodeCMMembers
          simp only [hm, ht]
        have hih := (ih p.1).mpr
        rw [ht] at hih
        rw [hnone]
        constructor
        · intro h
          cases h
        · intro h
          cases hih h.2
      | some q =>
        have hsome : encodeCMMembers env ety arena (m :: ms)
            = some (q.1, p.2 :: q.2) := by
          unfold encodeCMMembers
          simp only [hm, ht]
        rw [hsome]
        constructor
        · intro _
          exact ⟨hpre, (ih p.1).mp (by rw [ht]; rfl)⟩
        · intro _
          rfl

/-- `handleConformingResult` succeeds exactly when its member loop does. -/
theorem handleConformingResult_isSome (env : RenderEnv)
    (res : ConformingMethodListResult) :
    (handleConformingResult env res).isSome
      = (encodeCMMembers env res.exprType
          (res.exprType.printedName ++ res.exprType.printedUSR)
          res.members).isSome := by
  simp only [handleConformingResult, append, List.nil_append]
  cases ht : encodeCMMembers env res.exprType
      (res.exprType.printedName ++ res.exprType.printedUSR)
      res.members with
  | none => rfl
  | some q => rfl

/-- The per-request encode-and-deliver loop of the conforming-method
query: when it succeeds, the delivered events are exactly the successfully
encoded engine results, in emission order. -/
theorem encodeAllResults_spec (env : RenderEnv) :
    ∀ (rs : List ConformingMethodListResult) (evs : List CMEvent),
      encodeAllResults env rs = some evs →
      List.Forall₂ (fun e r => ∃ out, handleConformingResult env r = some out ∧
        e = CMEvent.result out) evs rs := by
  intro rs
  induction rs with
  | nil =>
    intro evs h
    unfold encodeAllResults at h
    injection h with h
    subst h
    exact List.Forall₂.nil
  | cons r rs ih =>
    intro evs h
    unfold encodeAllResults at h
    cases hr : handleConformingResult env r with
    | none =>
      rw [hr] at h
      cases h
    | some out =>
      rw [hr] at h
      cases ht : encodeAllResults env rs with
      | none =>
        rw [ht] at h
        cases h
      | some evs2 =>
        rw [ht] at h
        injection h with h
        subst h
        exact List.Forall₂.cons ⟨out, hr, rfl⟩ (ih evs2 ht)

/-- `swiftTypeContextInfoImpl` reaches the second pass when the invocation
parses, has inputs, and the instance is acquired; the parse pass is
performed exactly when the instance lacks persistent parser state. -/
theorem swiftTypeContextInfoImpl_success (env : ImplEnv)
    (results : List TypeContextInfoItem) (inv : InvocationInfo)
    (ci : CompilerInstanceState)
    (h1 : env.initInvocation = Except.ok inv) (h2 : inv.hasInputs = true)
    (h3 : env.getCompilerInstance = Except.ok ci) :
    swiftTypeContextInfoImpl env results
      = ImplOutcome.success (!ci.hasPersistentParserState) results := by
  unfold swiftTypeContextInfoImpl
  rw [h1]
  simp only [h2, if_true, h3]

/-- `swiftTypeContextInfoImpl` fails with `noInputsError` when the parsed
invocation declares no input files. -/
theorem swiftTypeContextInfoImpl_noInputs (env : ImplEnv)
    (results : List TypeContextInfoItem) (inv : InvocationInfo)
    (h1 : env.initInvocation = Except.ok inv) (h2 : inv.hasInputs = false) :
    swiftTypeContextInfoImpl env results = ImplOutcome.failure noInputsError := by
  unfold swiftTypeContextInfoImpl
  rw [h1]
  simp [h2]

/-- Conforming-method analogue of `swiftTypeContextInfoImpl_success`. -/
theorem swiftConformingMethodListImpl_success (env : ImplEnv)
    (names : List String) (results : List ConformingMethodListResult)
    (inv : InvocationInfo) (ci : CompilerInstanceState)
    (h1 : env.initInvocation = Except.ok inv) (h2 : inv.hasInputs = true)
    (h3 : env.getCompilerInstance = Except.ok ci) :
    swiftConformingMethodListImpl env names results
      = ImplOutcome.success (!ci.hasPersistentParserState) results := by
  unfold swiftConformingMethodListImpl
  rw [h1]
  simp only [h2, if_true, h3]

/-- Conforming-method analogue of `swiftTypeContextInfoImpl_noInputs`. -/
theorem swiftConformingMethodListImpl_noInputs (env : ImplEnv)
    (names : List String) (results : List ConformingMethodListResult)
    (inv : InvocationInfo)
    (h1 : env.initInvocation = Except.ok inv) (h2 : inv.hasInputs = false) :
    swiftConformingMethodListImpl env names results
      = ImplOutcome.failure noInputsError := by
  unfold swiftConformingMethodListImpl
  rw [h1]
  simp [h2]

/-- Every event of a successful conforming-method delivery is a success
result. -/
theorem encodeAllResults_shape (env : RenderEnv) :
    ∀ (rs : List ConformingMethodListResult) (evs : List CMEvent),
      encodeAllResults env rs = some evs →
      ∀ e ∈ evs, ∃ out, e = CMEvent.result out := by
  intro rs
  induction rs with
  | nil =>
    intro evs h
    unfold encodeAllResults at h
    injection h with h
    subst h
    intro e he
    cases he
  | cons r rs ih =>
    intro evs h
    unfold encodeAllResults at h
    split at h
    · cases h
    next out _ =>
      split at h
      · cases h
      next evs2 ht =>
        injection h with h
        subst h
        intro e he
        cases he with
        | head => exact ⟨out, rfl⟩
        | tail _ he => exact ih evs2 ht e he

/-- Claim C1: every string appended to a result's arena round-trips —
resolving its recorded `(offset, length)` span against the finished arena
yields byte-for-byte exactly the string that was appended, and an empty
string is recorded as a zero-length span rather than a sentinel (the
recorded span's length always equals the appended string's length).  This
holds for the type-context encoder and, whenever its casts succeed, for
the conforming-method encoder. -/
theorem C1_span_roundtrip :
    (∀ arena text, ((append arena text).2).length = text.length) ∧
    (∀ (env : RenderEnv) (item : TypeContextInfoItem),
      resolveSpan (handleSingleResult env item).arena
          (handleSingleResult env item).typeNameSpan
        = item.expectedTy.printedName ∧
      resolveSpan (handleSingleResult env item).arena
          (handleSingleResult env item).typeUSRSpan
        = item.expectedTy.printedUSR ∧
      List.Forall₂
        (tcMemberResolved env item.expectedTy
          (handleSingleResult env item).arena)
        (handleSingleResult env item).members item.implicitMembers) ∧
    (∀ (env : RenderEnv) (res : ConformingMethodListResult)
       (out : EncodedCMResult),
      handleConformingResult env res = some out →
      resolveSpan out.arena out.typeNameSpan = res.exprType.printedName ∧
      resolveSpan out.arena out.typeUSRSpan = res.exprType.printedUSR ∧
      List.Forall₂ (cmMemberResolved env res.exprType out.arena)
        out.members res.members) := by
  refine ⟨fun _ _ => rfl, fun env item => ?_, fun env res out h => ?_⟩
  · obtain ⟨h1, h2, h3, _⟩ := handleSingleResult_spec env item
    exact ⟨h1, h2, h3⟩
  · obtain ⟨h1, h2, h3, _⟩ := handleConformingResult_spec env res out h
    exact ⟨h1, h2, h3⟩

/-- Concrete instantiation of the round-trip property at the example
inputs. -/
theorem C1_span_roundtrip_witness :
    resolveSpan (handleSingleResult envEx itemEx).arena
        (handleSingleResult envEx itemEx).typeNameSpan
      = tyEx.printedName ∧
    List.Forall₂ (cmMemberResolved envEx tyEx cmOutEx.arena)
      cmOutEx.members cmResEx.members := by
  constructor
  · exact (C1_span_roundtrip.2.1 envEx itemEx).1
  · exact (C1_span_roundtrip.2.2 envEx cmResEx cmOutEx rfl).2.2

/-- Claim C2: every recorded span satisfies
`offset + length ≤ final arena size`; spans are pure values in this model,
recorded once and never mutated afterwards; and no two recorded spans
overlap, because every append writes only at the current end of the
arena.  This holds for the type-context encoder and, whenever its casts
succeed, for the conforming-method encoder. -/
theorem C2_span_bounds_and_disjointness :
    (∀ (env : RenderEnv) (item : TypeContextInfoItem),
      (∀ s ∈ tcSpans (handleSingleResult env item),
        s.offset + s.length ≤ (handleSingleResult env item).arena.length) ∧
      (tcSpans (handleSingleResult env item)).Pairwise spanDisjoint) ∧
    (∀ (env : RenderEnv) (res : ConformingMethodListResult)
       (out : EncodedCMResult),
      handleConformingResult env res = some out →
      (∀ s ∈ cmSpans out, s.offset + s.length ≤ out.arena.length) ∧
      (cmSpans out).Pairwise spanDisjoint) := by
  constructor
  · intro env item
    have ht := (handleSingleResult_spec env item).2.2.2
    constructor
    · intro s hs
      exact ((tiles_bounds _ _ _ ht).2 s hs).2
    · exact (tiles_pairwise _ _ _ ht).imp (fun hab => Or.inl hab)
  · intro env res out h
    have ht := (handleConformingResult_spec env res out h).2.2.2
    constructor
    · intro s hs
      exact ((tiles_bounds _ _ _ ht).2 s hs).2
    · exact (tiles_pairwise _ _ _ ht).imp (fun hab => Or.inl hab)

/-- Concrete instantiation of the bounds/disjointness property at the
example inputs. -/
theorem C2_span_bounds_witness :
    ((handleSingleResult envEx itemEx).typeUSRSpan.offset +
        (handleSingleResult envEx itemEx).typeUSRSpan.length
      ≤ (handleSingleResult envEx itemEx).arena.length) ∧
    (tcSpans (handleSingleResult envEx itemEx)).Pairwise spanDisjoint ∧
    (cmSpans cmOutEx).Pairwise spanDisjoint := by
  refine ⟨?_, ?_, ?_⟩
  · exact (C2_span_bounds_and_disjointness.1 envEx itemEx).1 _
      (by simp [tcSpans])
  · exact (C2_span_bounds_and_disjointness.1 envEx itemEx).2
  · exact (C2_span_bounds_and_disjointness.2 envEx cmResEx cmOutEx rfl).2

/-- Claim C3: one request delivers either only success callbacks (zero or
more) and no failure, or exactly one failure callback carrying a message
and no success callback; a success and a failure callback never both occur
in one request.  For the conforming-method query this is stated for every
normally-completing request (`some` delivery), since a failing
unconditional cast aborts the process instead of invoking the consumer. -/
theorem C3_success_xor_failure :
    (∀ env : TCRequestEnv,
      (∃ msg, getExpressionContextInfo env = [TCEvent.failed msg]) ∨
      (∀ e ∈ getExpressionContextInfo env, ∃ r, e = TCEvent.result r)) ∧
    (∀ (env : CMRequestEnv) (evs : List CMEvent),
      getConformingMethodList env = some evs →
      (∃ msg, evs = [CMEvent.failed msg]) ∨
      (∀ e ∈ evs, ∃ r, e = CMEvent.result r)) := by
  constructor
  · intro env
    cases hfs : env.fileSystem with
    | error e =>
      exact Or.inl ⟨e, by simp only [getExpressionContextInfo, hfs]⟩
    | ok u =>
      cases himpl : swiftTypeContextInfoImpl env.impl env.engineResults with
      | failure e =>
        exact Or.inl ⟨e, by simp only [getExpressionContextInfo, hfs, himpl]⟩
      | success d items =>
        refine Or.inr ?_
        intro e he
        rw [show getExpressionContextInfo env = items.map
            (fun it => TCEvent.result (handleSingleResult env.render it))
          from by simp only [getExpressionContextInfo, hfs, himpl]] at he
        rw [List.mem_map] at he
        obtain ⟨it, _, rfl⟩ := he
        exact ⟨_, rfl⟩
  · intro env evs h
    cases hfs : env.fileSystem with
    | error e =>
      rw [show getConformingMethodList env = some [CMEvent.failed e]
        from by simp only [getConformingMethodList, hfs]] at h
      injection h with h
      exact Or.inl ⟨e, h.symm⟩
    | ok u =>
      cases himpl : swiftConformingMethodListImpl env.impl
          env.expectedTypeNames env.engineResults with
      | failure e =>
        rw [show getConformingMethodList env = some [CMEvent.failed e]
          from by simp only [getConformingMethodList, hfs, himpl]] at h
        injection h with h
        exact Or.inl ⟨e, h.symm⟩
      | success d results =>
        rw [show getConformingMethodList env
            = encodeAllResults env.render results
          from by simp only [getConformingMethodList, hfs, himpl]] at h
        exact Or.inr (encodeAllResults_shape env.render results evs h)

/-- Concrete instantiation of the success-xor-failure property at the
example request environments. -/
theorem C3_success_xor_failure_witness :
    ((∃ msg, getExpressionContextInfo tcEnvEx = [TCEvent.failed msg]) ∨
      (∀ e ∈ getExpressionContextInfo tcEnvEx, ∃ r, e = TCEvent.result r)) ∧
    ((∃ msg, [CMEvent.result cmOutEx] = [CMEvent.failed msg]) ∨
      (∀ e ∈ [CMEvent.result cmOutEx], ∃ r, e = CMEvent.result r)) :=
  ⟨C3_success_xor_failure.1 tcEnvEx,
   C3_success_xor_failure.2 cmEnvEx [CMEvent.result cmOutEx] rfl⟩

/-- Claim C4: the doc-brief of a candidate declaration is resolved in
exactly three cases — a foreign (Clang) origin takes the brief text of the
node's nearest raw documentation comment (and the empty string when the
node is not a declaration or carries no raw comment), a native declaration
takes its own attached brief comment, and when neither source yields
documentation the brief is the empty string.  The computation is total
(never an error or a failure of the request), and the encoder stores
exactly this value in the member record. -/
theorem C4_doc_brief_cases (m : ValueDecl) :
    (∀ b, m.clangNode = some (ClangNode.declNode (some b)) →
      memberBrief m = b) ∧
    (m.clangNode = some (ClangNode.declNode none) → memberBrief m = []) ∧
    (m.clangNode = some ClangNode.otherNode → memberBrief m = []) ∧
    (m.clangNode = none → memberBrief m = m.briefComment) ∧
    (∀ env ty arena,
      ((encodeTCMember env ty arena m).2).brief = memberBrief m) := by
  refine ⟨?_, ?_, ?_, ?_, fun env ty arena => rfl⟩
  · intro b hb
    unfold memberBrief
    rw [hb]
  · intro hb
    unfold memberBrief
    rw [hb]
  · intro hb
    unfold memberBrief
    rw [hb]
  · intro hb
    unfold memberBrief
    rw [hb]

/-- Concrete instantiation of the doc-brief cases at a foreign-origin and
a native example declaration. -/
theorem C4_doc_brief_witness :
    memberBrief memberForeignEx = ['x'] ∧
    memberBrief memberEx = memberEx.briefComment :=
  ⟨(C4_doc_brief_cases memberForeignEx).1 ['x'] rfl,
   (C4_doc_brief_cases memberEx).2.2.2.1 rfl⟩

/-- Claim C5: for every member of a conforming-method result, the encoded
result-type name and result-type identifier are printed from the
substituted result type — the member's method interface type with the
subject expression type substituted in as owner, then the function result
extracted — not from the member's raw declared signature. -/
theorem C5_substituted_result_type (env : RenderEnv)
    (res : ConformingMethodListResult) (out : EncodedCMResult)
    (h : handleConformingResult env res = some out) :
    List.Forall₂ (fun sp m => ∃ rty,
      substitutedResultTy env res.exprType m = some rty ∧
      resolveSpan out.arena sp.typeNameSpan = rty.printedName ∧
      resolveSpan out.arena sp.typeUSRSpan = rty.printedUSR)
      out.members res.members :=
  List.Forall₂.imp (fun _ _ hsp => hsp.2.1)
    ((handleConformingResult_spec env res out h).2.2.1)

/-- Concrete instantiation of the substituted-result-type property at the
example conforming-method result. -/
theorem C5_substituted_result_type_witness :
    List.Forall₂ (fun sp m => ∃ rty,
      substitutedResultTy envEx tyEx m = some rty ∧
      resolveSpan cmOutEx.arena sp.typeNameSpan = rty.printedName ∧
      resolveSpan cmOutEx.arena sp.typeUSRSpan = rty.printedUSR)
      cmOutEx.members cmResEx.members :=
  C5_substituted_result_type envEx cmResEx cmOutEx rfl

/-- Claim C6: delivery preserves engine emission order with no reordering,
filtering or deduplication — on the success path the type-context events
are exactly the engine items mapped in order through the encoder (one
consumer callback per top-level item), each result's member records
correspond one-to-one and in order to the engine's candidate declarations,
and the conforming-method delivery loop likewise preserves order. -/
theorem C6_order_preservation :
    (∀ (env : TCRequestEnv) (inv : InvocationInfo)
       (ci : CompilerInstanceState),
      env.fileSystem = Except.ok () →
      env.impl.initInvocation = Except.ok inv →
      inv.hasInputs = true →
      env.impl.getCompilerInstance = Except.ok ci →
      getExpressionContextInfo env = env.engineResults.map
        (fun it => TCEvent.result (handleSingleResult env.render it))) ∧
    (∀ (env : RenderEnv) (item : TypeContextInfoItem),
      List.Forall₂
        (tcMemberResolved env item.expectedTy
          (handleSingleResult env item).arena)
        (handleSingleResult env item).members item.implicitMembers) ∧
    (∀ (env : RenderEnv) (rs : List ConformingMethodListResult)
       (evs : List CMEvent),
      encodeAllResults env rs = some evs →
      List.Forall₂ (fun e r => ∃ out,
        handleConformingResult env r = some out ∧ e = CMEvent.result out)
        evs rs) ∧
    (∀ (env : RenderEnv) (res : ConformingMethodListResult)
       (out : EncodedCMResult),
      handleConformingResult env res = some out →
      List.Forall₂ (cmMemberResolved env res.exprType out.arena)
        out.members res.members) := by
  refine ⟨?_, ?_, encodeAllResults_spec, ?_⟩
  · intro env inv ci h1 h2 h3 h4
    have himpl := swiftTypeContextInfoImpl_success env.impl
      env.engineResults inv ci h2 h3 h4
    simp only [getExpressionContextInfo, h1, himpl]
  · intro env item
    exact (handleSingleResult_spec env item).2.2.1
  · intro env res out h
    exact (handleConformingResult_spec env res out h).2.2.1

/-- Concrete instantiation of order preservation at the example
type-context request. -/
theorem C6_order_preservation_witness :
    getExpressionContextInfo tcEnvEx
      = [TCEvent.result (handleSingleResult envEx itemEx)] :=
  C6_order_preservation.1 tcEnvEx ⟨true⟩ ⟨false⟩ rfl rfl rfl rfl

/-- Claim C7: a request whose parsed compiler configuration declares zero
input files produces exactly one failure callback with the message
`"no input filenames specified"` and no success callback, for both entry
points. -/
theorem C7_no_input_files :
    noInputsError = "no input filenames specified" ∧
    (∀ (env : TCRequestEnv) (inv : InvocationInfo),
      env.fileSystem = Except.ok () →
      env.impl.initInvocation = Except.ok inv →
      inv.hasInputs = false →
      getExpressionContextInfo env = [TCEvent.failed noInputsError]) ∧
    (∀ (env : CMRequestEnv) (inv : InvocationInfo),
      env.fileSystem = Except.ok () →
      env.impl.initInvocation = Except.ok inv →
      inv.hasInputs = false →
      getConformingMethodList env = some [CMEvent.failed noInputsError]) := by
  refine ⟨rfl, ?_, ?_⟩
  · intro env inv h1 h2 h3
    have himpl := swiftTypeContextInfoImpl_noInputs env.impl
      env.engineResults inv h2 h3
    simp only [getExpressionContextInfo, h1, himpl]
  · intro env inv h1 h2 h3
    have himpl := swiftConformingMethodListImpl_noInputs env.impl
      env.expectedTypeNames env.engineResults inv h2 h3
    simp only [getConformingMethodList, h1, himpl]

/-- Concrete instantiation of the zero-input-files failure at the example
request environments. -/
theorem C7_no_input_files_witness :
    getExpressionContextInfo tcEnvNoInputs = [TCEvent.failed noInputsError] ∧
    getConformingMethodList cmEnvNoInputs
      = some [CMEvent.failed noInputsError] :=
  ⟨C7_no_input_files.2.1 tcEnvNoInputs ⟨false⟩ rfl rfl rfl,
   C7_no_input_files.2.2 cmEnvNoInputs ⟨false⟩ rfl rfl rfl⟩

/-- Claim C8: on the path where the invocation parses with inputs and the
completion instance is acquired, the parse-and-resolve-imports-only pass
is performed exactly when the acquired instance does not already hold
persistent parser state (`didParse = !hasPersistentParserState`), and the
second (completion) pass still runs and delivers the engine results in
either case. -/
theorem C8_parse_pass_iff_fresh_state :
    (∀ (env : ImplEnv) (results : List TypeContextInfoItem)
       (inv : InvocationInfo) (ci : CompilerInstanceState),
      env.initInvocation = Except.ok inv → inv.hasInputs = true →
      env.getCompilerInstance = Except.ok ci →
      swiftTypeContextInfoImpl env results
        = ImplOutcome.success (!ci.hasPersistentParserState) results) ∧
    (∀ (env : ImplEnv) (names : List String)
       (results : List ConformingMethodListResult)
       (inv : InvocationInfo) (ci : CompilerInstanceState),
      env.initInvocation = Except.ok inv → inv.hasInputs = true →
      env.getCompilerInstance = Except.ok ci →
      swiftConformingMethodListImpl env names results
        = ImplOutcome.success (!ci.hasPersistentParserState) results) :=
  ⟨swiftTypeContextInfoImpl_success, swiftConformingMethodListImpl_success⟩

/-- Concrete instantiation: a fresh instance triggers the parse pass, a
reused instance with persistent parser state skips it while the second
pass still delivers the results. -/
theorem C8_parse_pass_witness :
    swiftTypeContextInfoImpl implEnvOk [itemEx]
      = ImplOutcome.success true [itemEx] ∧
    swiftTypeContextInfoImpl implEnvReuse [itemEx]
      = ImplOutcome.success false [itemEx] ∧
    swiftConformingMethodListImpl implEnvReuse [] [cmResEx]
      = ImplOutcome.success false [cmResEx] :=
  ⟨C8_parse_pass_iff_fresh_state.1 implEnvOk [itemEx] ⟨true⟩ ⟨false⟩
      rfl rfl rfl,
   C8_parse_pass_iff_fresh_state.1 implEnvReuse [itemEx] ⟨true⟩ ⟨true⟩
      rfl rfl rfl,
   C8_parse_pass_iff_fresh_state.2 implEnvReuse [] [cmResEx] ⟨true⟩ ⟨true⟩
      rfl rfl rfl⟩

/-- Claim C10: the conforming-method marshaller unconditionally casts each
member to a function declaration and its substituted interface type to a
function type; encoding completes exactly when every emitted member
satisfies that precondition, so the cast-failure branch is unreachable
under it. -/
theorem C10_cast_precondition (env : RenderEnv)
    (res : ConformingMethodListResult) :
    (∀ m ∈ res.members, cmPrecond env res.exprType m) ↔
      (handleConformingResult env res).isSome = true := by
  rw [handleConformingResult_isSome]
  exact (encodeCMMembers_isSome env res.exprType res.members _).symm

/-- Concrete instantiation: the example member satisfies the cast
precondition, so its encoding succeeds. -/
theorem C10_cast_precondition_witness :
    (handleConformingResult envEx cmResEx).isSome = true := by
  refine (C10_cast_precondition envEx cmResEx).mp ?_
  intro m hm
  have hme : m = memberEx := by simpa [cmResEx] using hm
  subst hme
  rfl

end SwiftTypeContextInfo
